import Mathlib

/-!
A verification development for the `into-dbus-python` library.

The development shallowly embeds the two core modules of the repository:

* `_xformer.py`  — compiling a D-Bus signature string into a transformation
  from plain Python values to typed dbus-python values (`xformers`,
  `xformer`, `_ToDbusXformer`, `_wrapper`);
* `_signature.py` — inferring the signature of an already typed value
  (`signature`).

Python values are modelled by the mutual inductive family `PyVal`,
dbus-python values by `DbusVal`, and exceptions by `PyErr` / `SigErr`.
Recursion of the compiled transforms is driven by an explicit fuel
parameter so that every definition is structural and kernel-reducible;
the public entry points supply `pySize`-based fuel, which is sufficient
because every recursive call descends to a strict subvalue.

Modelling notes, recorded once here:

* The signature grammar parser (`dbus_signature_pyparsing`, an external
  dependency) is not part of the repository.  `parseC` below is modelled
  from the spec's description of the grammar (the scalar codes
  `y b n q i u x t d s o g h`, `a` + element type, `a{` key value `}`,
  `(` members `)`, `v`), parsing a prefix of the input the way
  `parseString` without `parseAll` does, while `parseTopF` models
  `parseString(sig, parseAll=True)` over a sequence of complete types.
* The scalar constructors (`dbus.types.Byte`, …) are external as well;
  `mkBasic` is modelled from the spec: a value of the wrong shape fails
  with the host `TypeError`, an out-of-range numeric value with the host
  `ValueError`.
* `_xformer.py` imports `IntoDPValueError` from `._errors`, but the
  repository's `_errors.py` does not define that class.  The missing
  class is modelled from the spec as the library's "unexpected value"
  error kind (`PyErr.unexpectedValue` below, carrying the offending
  value, the reported parameter name, the message and the `__cause__`),
  an error distinct from the host `TypeError`/`ValueError`.
* Python strings are iterable sequences of characters, and the source
  relies on plain iteration: tuple unpacking accepts a length-2 string
  (`unpack2`), and the array and struct transforms iterate a string's
  characters as one-character strings (`strElems`), exactly as `len`,
  `zip` and list comprehensions do.
* Python floats appear only as opaque payloads of `dbus.types.Double`;
  the embedding carries an abstract integer token instead of an IEEE
  value, since no embedded operation computes with the payload.
-/

namespace IntoDbus

/-- The thirteen basic (scalar) D-Bus type codes. -/
inductive BasicCode
  | y | b | n | q | i | u | x | t | d | s | o | g | h
deriving DecidableEq

/-- The single-character code of a basic type, as given to the
`_handleBaseCase` parse actions. -/
def BasicCode.char : BasicCode → Char
  | .y => 'y'
  | .b => 'b'
  | .n => 'n'
  | .q => 'q'
  | .i => 'i'
  | .u => 'u'
  | .x => 'x'
  | .t => 't'
  | .d => 'd'
  | .s => 's'
  | .o => 'o'
  | .g => 'g'
  | .h => 'h'

/-- The one-character fragment string of a basic type, as returned by
the `_handleBaseCase` parse actions (`'y'`, `'b'`, …). -/
def BasicCode.str : BasicCode → String
  | .y => "y"
  | .b => "b"
  | .n => "n"
  | .q => "q"
  | .i => "i"
  | .u => "u"
  | .x => "x"
  | .t => "t"
  | .d => "d"
  | .s => "s"
  | .o => "o"
  | .g => "g"
  | .h => "h"

/-- Recognize a basic type code character. -/
def basicOfChar (c : Char) : Option BasicCode :=
  if c = 'y' then some .y
  else if c = 'b' then some .b
  else if c = 'n' then some .n
  else if c = 'q' then some .q
  else if c = 'i' then some .i
  else if c = 'u' then some .u
  else if c = 'x' then some .x
  else if c = 't' then some .t
  else if c = 'd' then some .d
  else if c = 's' then some .s
  else if c = 'o' then some .o
  else if c = 'g' then some .g
  else if c = 'h' then some .h
  else none

mutual

/-- Parse trees of single complete types of the signature grammar. -/
inductive SigType
  | basic : BasicCode → SigType
  | variant : SigType
  | array : SigType → SigType
  | dict : SigType → SigType → SigType
  | struct : SigMembers → SigType

/-- The member types of a struct production. -/
inductive SigMembers
  | nil : SigMembers
  | cons : SigType → SigMembers → SigMembers

end

/-- Number of members of a struct signature (`len(funcs)`). -/
def SigMembers.length : SigMembers → Nat
  | .nil => 0
  | .cons _ ms => 1 + SigMembers.length ms

/-- Build struct members from a list. -/
def SigMembers.ofList : List SigType → SigMembers
  | [] => .nil
  | t :: ts => .cons t (SigMembers.ofList ts)

mutual

/-- The signature fragment attached to a compiled node: each parse
action of `_ToDbusXformer` returns the fragment built from its
children's fragments (`'a' + sig`, `'a{' + signature + '}'`,
`'(' + signature + ')'`, `'v'`, or the basic code). -/
def fragment : SigType → String
  | .basic k => k.str
  | .variant => "v"
  | .array et => "a" ++ fragment et
  | .dict kt vt => "a\x7b" ++ fragment kt ++ fragment vt ++ "\x7d"
  | .struct ms => "(" ++ fragmentJoin ms ++ ")"

/-- `''.join(s for (_, s) in subtrees)`: the concatenation of the
fragments of the members of a struct. -/
def fragmentJoin : SigMembers → String
  | .nil => ""
  | .cons t ms => fragment t ++ fragmentJoin ms

end

mutual

/-- Plain (untyped) Python values given to a transform. -/
inductive PyVal
  | bool : Bool → PyVal
  | int : Int → PyVal
  | float : Int → PyVal
  | str : String → PyVal
  | list : PyList → PyVal
  | tuple : PyList → PyVal
  | dict : PyPairs → PyVal

/-- The items of a Python list or tuple. -/
inductive PyList
  | nil : PyList
  | cons : PyVal → PyList → PyList

/-- The key/value items of a Python dict, in insertion order. -/
inductive PyPairs
  | nil : PyPairs
  | cons : PyVal → PyVal → PyPairs → PyPairs

end

/-- Build a `PyList` from a list. -/
def PyList.ofList : List PyVal → PyList
  | [] => .nil
  | x :: xs => .cons x (PyList.ofList xs)

/-- Build `PyPairs` from a list of pairs. -/
def PyPairs.ofList : List (PyVal × PyVal) → PyPairs
  | [] => .nil
  | (k, w) :: ps => .cons k w (PyPairs.ofList ps)

/-- Number of items of a Python list or tuple. -/
def PyList.length : PyList → Nat
  | .nil => 0
  | .cons _ xs => 1 + PyList.length xs

mutual

/-- Structural size of a Python value, used as recursion fuel by the
public entry points. -/
def pySize : PyVal → Nat
  | .bool _ => 1
  | .int _ => 1
  | .float _ => 1
  | .str s => 1 + s.length
  | .list xs => 1 + plSize xs
  | .tuple xs => 1 + plSize xs
  | .dict ps => 1 + ppSize ps

/-- Structural size of a `PyList`. -/
def plSize : PyList → Nat
  | .nil => 1
  | .cons x xs => 1 + pySize x + plSize xs

/-- Structural size of `PyPairs`. -/
def ppSize : PyPairs → Nat
  | .nil => 1
  | .cons k w ps => 1 + pySize k + pySize w + ppSize ps

end

mutual

/-- Typed dbus-python values: each carries its `variant_level`, and each
container carries the `signature` string stowed at construction time. -/
inductive DbusVal
  | boolean : Bool → Nat → DbusVal
  | byte : Int → Nat → DbusVal
  | int16 : Int → Nat → DbusVal
  | uint16 : Int → Nat → DbusVal
  | int32 : Int → Nat → DbusVal
  | uint32 : Int → Nat → DbusVal
  | int64 : Int → Nat → DbusVal
  | uint64 : Int → Nat → DbusVal
  | double : Int → Nat → DbusVal
  | string : String → Nat → DbusVal
  | objectPath : String → Nat → DbusVal
  | signatureVal : String → Nat → DbusVal
  | unixFd : Int → Nat → DbusVal
  | array : String → DbusList → Nat → DbusVal
  | dictionary : String → DbusPairs → Nat → DbusVal
  | struct : String → DbusList → Nat → DbusVal

/-- The items of a dbus-python `Array` or `Struct`. -/
inductive DbusList
  | nil : DbusList
  | cons : DbusVal → DbusList → DbusList

/-- The entries of a dbus-python `Dictionary`, in insertion order. -/
inductive DbusPairs
  | nil : DbusPairs
  | cons : DbusVal → DbusVal → DbusPairs → DbusPairs

end

/-- Build a `DbusList` from a list. -/
def DbusList.ofList : List DbusVal → DbusList
  | [] => .nil
  | x :: xs => .cons x (DbusList.ofList xs)

/-- Build `DbusPairs` from a list of pairs. -/
def DbusPairs.ofList : List (DbusVal × DbusVal) → DbusPairs
  | [] => .nil
  | (k, w) :: ps => .cons k w (DbusPairs.ofList ps)

/-- The `variant_level` attribute of a dbus-python value. -/
def DbusVal.variantLevel : DbusVal → Nat
  | .boolean _ l => l
  | .byte _ l => l
  | .int16 _ l => l
  | .uint16 _ l => l
  | .int32 _ l => l
  | .uint32 _ l => l
  | .int64 _ l => l
  | .uint64 _ l => l
  | .double _ l => l
  | .string _ l => l
  | .objectPath _ l => l
  | .signatureVal _ l => l
  | .unixFd _ l => l
  | .array _ _ l => l
  | .dictionary _ _ l => l
  | .struct _ _ l => l

/-- Host-language (Python) exception kinds that the embedded code can
raise or observe: `TypeError`, `ValueError`, `AttributeError`, the
grammar's `ParseException` and a failed `assert`. -/
inductive HostErr
  | typeError
  | valueError
  | attributeError
  | parseException
  | assertionError
deriving DecidableEq

/-- Exceptions escaping a transform.  `unexpectedValue` models the
library's "unexpected value" error kind (`IntoDPValueError` as used by
`_xformer.py`, `IntoDPUnexpectedValueError` in `_errors.py`): it carries
the offending value, the reported parameter name, the message, and the
`__cause__` when raised from an `except` block.  `fuelOut` is an
artifact of the fuel-driven embedding; the entry points supply
sufficient fuel. -/
inductive PyErr
  | host : HostErr → PyErr
  | unexpectedValue : PyVal → String → String → Option HostErr → PyErr
  | fuelOut

/-- Errors of signature inference: each constructor is a reachable
`IntoDPSignatureError` raise site of `_signature.py`, carrying the
problematic value. -/
inductive SigErr
  | varying : DbusVal → SigErr
  | dictLenMismatch : DbusVal → SigErr
  | dictVaryingKeys : DbusVal → SigErr

/-- `''.join(...)` over a list of strings. -/
def sjoin : List String → String
  | [] => ""
  | s :: rest => s ++ sjoin rest

/-- `max(x for (_, x) in elements)` over a non-empty list of
(value, level) pairs (and 0 on the empty list, where the source never
evaluates it). -/
def maxSnd : List (DbusVal × Nat) → Nat
  | [] => 0
  | (_, l) :: rest => max l (maxSnd rest)

/-- `max(max(x, y) for ((_, x), (_, y)) in elements)` over a non-empty
list of transformed dict entries (and 0 on the empty list, where the
source never evaluates it). -/
def maxPairSnd : List ((DbusVal × Nat) × (DbusVal × Nat)) → Nat
  | [] => 0
  | ((_, x), (_, y)) :: rest => max (max x y) (maxPairSnd rest)

/-- Python iteration over a string: each character is yielded as a
one-character string (`[x for x in "ab"]` is `["a", "b"]`). -/
def strElems : List Char → PyList
  | [] => .nil
  | c :: cs => .cons (.str (String.singleton c)) (strElems cs)

/-- Python tuple unpacking `(signature, an_obj) = a_tuple`: succeeds on
an iterable of exactly two items (a list or tuple of length 2 unpacks
its elements, a string of length 2 unpacks its two characters as
one-character strings, a dict of two entries unpacks its keys), raises
`ValueError` on an iterable of the wrong length and `TypeError` on a
non-iterable. -/
def unpack2 : PyVal → Except HostErr (PyVal × PyVal)
  | .tuple (.cons a (.cons b .nil)) => .ok (a, b)
  | .list (.cons a (.cons b .nil)) => .ok (a, b)
  | .tuple _ => .error .valueError
  | .list _ => .error .valueError
  | .dict (.cons k1 _ (.cons k2 _ .nil)) => .ok (k1, k2)
  | .dict _ => .error .valueError
  | .str s =>
    match s.data with
    | [a, b] => .ok (.str (String.singleton a), .str (String.singleton b))
    | _ => .error .valueError
  | _ => .error .typeError

/-- Modelled from the spec: the scalar constructors of the external
dbus-python library (`dbus.types.Byte`, `dbus.types.Boolean`, …), called
as `klass(v, variant_level=obj_level)` by the base-case transforms.  A
value of the wrong shape raises the host `TypeError`; an out-of-range
numeric value raises the host `ValueError`.  Python `bool` is accepted
wherever `int` is (it is an `int` subclass). -/
def mkBasic : BasicCode → PyVal → Nat → Except PyErr DbusVal
  | .b, .bool b, lvl => .ok (.boolean b lvl)
  | .b, .int n, lvl => .ok (.boolean (decide (n ≠ 0)) lvl)
  | .b, _, _ => .error (.host .typeError)
  | .y, .bool b, lvl => .ok (.byte (if b then 1 else 0) lvl)
  | .y, .int n, lvl =>
    if 0 ≤ n ∧ n ≤ 255 then .ok (.byte n lvl) else .error (.host .valueError)
  | .y, _, _ => .error (.host .typeError)
  | .n, .bool b, lvl => .ok (.int16 (if b then 1 else 0) lvl)
  | .n, .int n, lvl =>
    if -32768 ≤ n ∧ n ≤ 32767 then .ok (.int16 n lvl) else .error (.host .valueError)
  | .n, _, _ => .error (.host .typeError)
  | .q, .bool b, lvl => .ok (.uint16 (if b then 1 else 0) lvl)
  | .q, .int n, lvl =>
    if 0 ≤ n ∧ n ≤ 65535 then .ok (.uint16 n lvl) else .error (.host .valueError)
  | .q, _, _ => .error (.host .typeError)
  | .i, .bool b, lvl => .ok (.int32 (if b then 1 else 0) lvl)
  | .i, .int n, lvl =>
    if -2147483648 ≤ n ∧ n ≤ 2147483647 then .ok (.int32 n lvl)
    else .error (.host .valueError)
  | .i, _, _ => .error (.host .typeError)
  | .u, .bool b, lvl => .ok (.uint32 (if b then 1 else 0) lvl)
  | .u, .int n, lvl =>
    if 0 ≤ n ∧ n ≤ 4294967295 then .ok (.uint32 n lvl) else .error (.host .valueError)
  | .u, _, _ => .error (.host .typeError)
  | .x, .bool b, lvl => .ok (.int64 (if b then 1 else 0) lvl)
  | .x, .int n, lvl =>
    if -9223372036854775808 ≤ n ∧ n ≤ 9223372036854775807 then .ok (.int64 n lvl)
    else .error (.host .valueError)
  | .x, _, _ => .error (.host .typeError)
  | .t, .bool b, lvl => .ok (.uint64 (if b then 1 else 0) lvl)
  | .t, .int n, lvl =>
    if 0 ≤ n ∧ n ≤ 18446744073709551615 then .ok (.uint64 n lvl)
    else .error (.host .valueError)
  | .t, _, _ => .error (.host .typeError)
  | .d, .float n, lvl => .ok (.double n lvl)
  | .d, .int n, lvl => .ok (.double n lvl)
  | .d, .bool b, lvl => .ok (.double (if b then 1 else 0) lvl)
  | .d, _, _ => .error (.host .typeError)
  | .s, .str v, lvl => .ok (.string v lvl)
  | .s, _, _ => .error (.host .typeError)
  | .o, .str v, lvl => .ok (.objectPath v lvl)
  | .o, _, _ => .error (.host .typeError)
  | .g, .str v, lvl => .ok (.signatureVal v lvl)
  | .g, _, _ => .error (.host .typeError)
  | .h, .bool b, lvl => .ok (.unixFd (if b then 1 else 0) lvl)
  | .h, .int n, lvl =>
    if 0 ≤ n then .ok (.unixFd n lvl) else .error (.host .valueError)
  | .h, _, _ => .error (.host .typeError)

/-- `_ToDbusXformer._variant_levels`: the level for the constructed
object and the level returned to the enclosing transform. -/
def variant_levels (level variant : Nat) : Nat × Nat :=
  if variant ≠ 0 then (level + variant, level + variant) else (0, level)

/-- Modelled from the spec: the grammar's repetition of complete types
inside a struct production, up to the closing `)` (which it consumes). -/
def parseLoop (step : List Char → Option (SigType × List Char)) :
    Nat → List Char → Option (SigMembers × List Char)
  | 0, _ => none
  | f + 1, cs =>
    match cs with
    | ')' :: rest => some (.nil, rest)
    | [] => none
    | _ =>
      match step cs with
      | none => none
      | some (t, r) =>
        match parseLoop step f r with
        | none => none
        | some (ms, r2) => some (.cons t ms, r2)

/-- Modelled from the spec: the external signature grammar
(`dbus_signature_pyparsing`), missing from the repository.  Parses one
complete type from a prefix of the input: a basic code, `v`, `a` +
element type, `a{` + key type + value type + `}`, or `(` + members +
`)`, and returns the unconsumed rest. -/
def parseC : Nat → List Char → Option (SigType × List Char)
  | 0, _ => none
  | _ + 1, [] => none
  | f + 1, c :: cs =>
    match basicOfChar c with
    | some k => some (.basic k, cs)
    | none =>
      if c = 'v' then some (.variant, cs)
      else if c = 'a' then
        match cs with
        | '{' :: cs2 =>
          match parseC f cs2 with
          | none => none
          | some (kt, r1) =>
            match parseC f r1 with
            | none => none
            | some (vt, r2) =>
              match r2 with
              | '}' :: r3 => some (.dict kt vt, r3)
              | _ => none
        | _ =>
          match parseC f cs with
          | none => none
          | some (et, r) => some (.array et, r)
      else if c = '(' then
        match parseLoop (fun cs2 => parseC f cs2) f cs with
        | none => none
        | some (ms, r) => some (.struct ms, r)
      else none

/-- `self.COMPLETE.parseString(signature)[0]`: parse one complete type
from a prefix of the string (no `parseAll`). -/
def parseOneStr (s : String) : Option (SigType × List Char) :=
  parseC (s.length + 1) s.data

/-- Repeatedly parse complete types until the input is exhausted. -/
def parseTopF : Nat → List Char → Option (List SigType)
  | _, [] => some []
  | 0, _ :: _ => none
  | f + 1, cs =>
    match parseC (cs.length + 1) cs with
    | none => none
    | some (t, r) =>
      match parseTopF f r with
      | none => none
      | some ts => some (t :: ts)

/-- `self.PARSER.parseString(sig, parseAll=True)`: the sequence of
complete types of a signature string, or `none` on a grammar parse
error. -/
def parseTopStr (s : String) : Option (List SigType) :=
  parseTopF (s.length + 1) s.data

mutual

/-- The transform compiled for a parse tree, mirroring the parse actions
of `_ToDbusXformer`: `the_func(expr, variant=variant)` returns the
transformed dbus value and the level for the enclosing transform. -/
def xform : Nat → SigType → PyVal → Nat → Except PyErr (DbusVal × Nat)
  | 0, _, _, _ => .error .fuelOut
  | _ + 1, .basic k, v, variant =>
    match mkBasic k v (variant_levels 0 variant).1 with
    | .error e => .error e
    | .ok d => .ok (d, (variant_levels 0 variant).2)
  | f + 1, .variant, v, variant =>
    match unpack2 v with
    | .error e => .error (.host e)
    | .ok (sv, w) =>
      match sv with
      | .str s =>
        match parseOneStr s with
        | none => .error (.host .parseException)
        | some (t, _) =>
          if fragment t = s then
            match xform f t w (variant + 1) with
            | .error e => .error e
            | .ok (d, _) => .ok (d, d.variantLevel)
          else .error (.host .assertionError)
      | _ => .error (.host .attributeError)
  | f + 1, .array et, v, variant =>
    match v with
    | .dict es =>
      .error (.unexpectedValue (.dict es) "a_list" "is a dict, must be an array" none)
    | .list xs | .tuple xs =>
      match xformElems f et xs with
      | .error e => .error e
      | .ok elements =>
        let level :=
          match elements with
          | [] => if (fragment et).data.contains 'v' then 1 else 0
          | _ => maxSnd elements
        let lv := variant_levels level variant
        .ok (.array (fragment et) (.ofList (elements.map Prod.fst)) lv.1, lv.2)
    | .str s2 =>
      match xformElems f et (strElems s2.data) with
      | .error e => .error e
      | .ok elements =>
        let level :=
          match elements with
          | [] => if (fragment et).data.contains 'v' then 1 else 0
          | _ => maxSnd elements
        let lv := variant_levels level variant
        .ok (.array (fragment et) (.ofList (elements.map Prod.fst)) lv.1, lv.2)
    | _ => .error (.host .typeError)
  | f + 1, .dict kt vt, v, variant =>
    match v with
    | .dict es =>
      match xformPairs f kt vt es with
      | .error e => .error e
      | .ok pairs =>
        let sig := fragment kt ++ fragment vt
        let level :=
          match pairs with
          | [] => if sig.data.contains 'v' then 1 else 0
          | _ => maxPairSnd pairs
        let lv := variant_levels level variant
        .ok (.dictionary sig (.ofList (pairs.map (fun p => (p.1.1, p.2.1)))) lv.1, lv.2)
    | _ => .error (.host .attributeError)
  | f + 1, .struct ms, v, variant =>
    match v with
    | .dict es =>
      .error (.unexpectedValue (.dict es) "a_list" "must be a simple sequence, is a dict" none)
    | .list xs | .tuple xs =>
      if xs.length = ms.length then
        match xformZip f ms xs with
        | .error e => .error e
        | .ok elements =>
          let level :=
            match elements with
            | [] => 0
            | _ => maxSnd elements
          let lv := variant_levels level variant
          .ok (.struct (fragmentJoin ms) (.ofList (elements.map Prod.fst)) lv.1, lv.2)
      else
        .error (.unexpectedValue v "a_list"
          ("must have exactly " ++ toString ms.length ++ " items, has " ++
            toString xs.length) none)
    | .str s2 =>
      if s2.length = ms.length then
        match xformZip f ms (strElems s2.data) with
        | .error e => .error e
        | .ok elements =>
          let level :=
            match elements with
            | [] => 0
            | _ => maxSnd elements
          let lv := variant_levels level variant
          .ok (.struct (fragmentJoin ms) (.ofList (elements.map Prod.fst)) lv.1, lv.2)
      else
        .error (.unexpectedValue v "a_list"
          ("must have exactly " ++ toString ms.length ++ " items, has " ++
            toString s2.length) none)
    | _ => .error (.host .typeError)

/-- `[func(x) for x in a_list]`: the element transform applied to every
item at the default variant level 0, failing fast. -/
def xformElems : Nat → SigType → PyList → Except PyErr (List (DbusVal × Nat))
  | _, _, .nil => .ok []
  | 0, _, .cons _ _ => .error .fuelOut
  | f + 1, et, .cons x xs =>
    match xform f et x 0 with
    | .error e => .error e
    | .ok r =>
      match xformElems f et xs with
      | .error e => .error e
      | .ok rs => .ok (r :: rs)

/-- `[(key_func(x), value_func(y)) for (x, y) in a_dict.items()]`. -/
def xformPairs : Nat → SigType → SigType → PyPairs →
    Except PyErr (List ((DbusVal × Nat) × (DbusVal × Nat)))
  | _, _, _, .nil => .ok []
  | 0, _, _, .cons _ _ _ => .error .fuelOut
  | f + 1, kt, vt, .cons k w ps =>
    match xform f kt k 0 with
    | .error e => .error e
    | .ok kk =>
      match xform f vt w 0 with
      | .error e => .error e
      | .ok vv =>
        match xformPairs f kt vt ps with
        | .error e => .error e
        | .ok rs => .ok ((kk, vv) :: rs)

/-- `[f(x) for (f, x) in zip(funcs, a_list)]`: member transforms applied
pointwise (`zip` truncates; the caller has already checked the
lengths). -/
def xformZip : Nat → SigMembers → PyList → Except PyErr (List (DbusVal × Nat))
  | _, .nil, _ => .ok []
  | _, .cons _ _, .nil => .ok []
  | 0, .cons _ _, .cons _ _ => .error .fuelOut
  | f + 1, .cons t ms, .cons x xs =>
    match xform f t x 0 with
    | .error e => .error e
    | .ok r =>
      match xformZip f ms xs with
      | .error e => .error e
      | .ok rs => .ok (r :: rs)

end

/-- `_wrapper`: wraps a compiled top-level transform so that every
`TypeError` or `ValueError` is caught and re-raised as the library's
value error naming `expr`, with the original exception as cause.  Every
other exception propagates unchanged. -/
def wrap (v : PyVal) : Except PyErr (DbusVal × Nat) → Except PyErr (DbusVal × Nat)
  | .error (.host .typeError) =>
    .error (.unexpectedValue v "expr" "could not be transformed" (some .typeError))
  | .error (.host .valueError) =>
    .error (.unexpectedValue v "expr" "could not be transformed" (some .valueError))
  | r => r

/-- One wrapped top-level transform, as produced by `xformers`, applied
to a value (with sufficient fuel). -/
def transform (t : SigType) (v : PyVal) : Except PyErr (DbusVal × Nat) :=
  wrap v (xform (pySize v + 1) t v 0)

/-- `[x for (x, _) in (f(a) for (f, a) in zip(funcs, objects))]`. -/
def runAll : List SigType → List PyVal → Except PyErr (List DbusVal)
  | [], _ => .ok []
  | _ :: _, [] => .ok []
  | t :: ts, v :: vs =>
    match transform t v with
    | .error e => .error e
    | .ok (d, _) =>
      match runAll ts vs with
      | .error e => .error e
      | .ok ds => .ok (d :: ds)

/-- The public entry point `xformer(signature)(objects)`: parse the
signature (`none` models the grammar's parse error escaping from
`xformers`), check the arity of `objects`, then apply the wrapped
transforms pointwise and keep the values. -/
def xformer (s : String) (objects : List PyVal) : Option (Except PyErr (List DbusVal)) :=
  match parseTopStr s with
  | none => none
  | some ts =>
    some
      (if objects.length = ts.length then runAll ts objects
       else
         .error (.unexpectedValue (.list (.ofList objects)) "objects"
           ("must have exactly " ++ toString ts.length ++ " items, has " ++
             toString objects.length) none))

/-- The plain Python values accepted by the scalar constructor of a
basic type code (the domain on which `mkBasic` succeeds). -/
def shapedBasic : BasicCode → PyVal → Bool
  | .b, .bool _ => true
  | .b, .int _ => true
  | .y, .bool _ => true
  | .y, .int n => decide (0 ≤ n ∧ n ≤ 255)
  | .n, .bool _ => true
  | .n, .int n => decide (-32768 ≤ n ∧ n ≤ 32767)
  | .q, .bool _ => true
  | .q, .int n => decide (0 ≤ n ∧ n ≤ 65535)
  | .i, .bool _ => true
  | .i, .int n => decide (-2147483648 ≤ n ∧ n ≤ 2147483647)
  | .u, .bool _ => true
  | .u, .int n => decide (0 ≤ n ∧ n ≤ 4294967295)
  | .x, .bool _ => true
  | .x, .int n => decide (-9223372036854775808 ≤ n ∧ n ≤ 9223372036854775807)
  | .t, .bool _ => true
  | .t, .int n => decide (0 ≤ n ∧ n ≤ 18446744073709551615)
  | .d, .bool _ => true
  | .d, .int _ => true
  | .d, .float _ => true
  | .s, .str _ => true
  | .o, .str _ => true
  | .g, .str _ => true
  | .h, .bool _ => true
  | .h, .int n => decide (0 ≤ n)
  | _, _ => false

mutual

/-- A Python value shaped to match a complete type: scalars in the
domain of the scalar constructor, lists of shaped elements for arrays,
dicts of shaped entries for dict-entry arrays, sequences of matching
arity for structs, and `(embedded_signature, embedded_value)` pairs with
a parseable embedded signature for variants. -/
def shapedF : Nat → SigType → PyVal → Bool
  | 0, _, _ => false
  | _ + 1, .basic k, v => shapedBasic k v
  | f + 1, .variant, .tuple (.cons (.str s) (.cons w .nil)) =>
    (match parseOneStr s with
     | some (t2, []) => shapedF f t2 w
     | _ => false)
  | f + 1, .variant, .list (.cons (.str s) (.cons w .nil)) =>
    (match parseOneStr s with
     | some (t2, []) => shapedF f t2 w
     | _ => false)
  | f + 1, .array et, .list xs => shapedElems f et xs
  | f + 1, .dict kt vt, .dict ps => shapedPairs f kt vt ps
  | f + 1, .struct ms, .list xs => shapedZip f ms xs
  | f + 1, .struct ms, .tuple xs => shapedZip f ms xs
  | _ + 1, _, _ => false

/-- Every item of a list shaped to match the element type. -/
def shapedElems : Nat → SigType → PyList → Bool
  | _, _, .nil => true
  | 0, _, .cons _ _ => false
  | f + 1, et, .cons x xs => shapedF f et x && shapedElems f et xs

/-- Every key and value of a dict shaped to match the key and value
types. -/
def shapedPairs : Nat → SigType → SigType → PyPairs → Bool
  | _, _, _, .nil => true
  | 0, _, _, .cons _ _ _ => false
  | f + 1, kt, vt, .cons k w ps =>
    shapedF f kt k && shapedF f vt w && shapedPairs f kt vt ps

/-- A sequence of exactly the arity of the struct, shaped pointwise. -/
def shapedZip : Nat → SigMembers → PyList → Bool
  | _, .nil, .nil => true
  | _, .nil, .cons _ _ => false
  | _, .cons _ _, .nil => false
  | 0, .cons _ _, .cons _ _ => false
  | f + 1, .cons t ms, .cons x xs => shapedF f t x && shapedZip f ms xs

end

/-- A Python value shaped to match a complete type (with sufficient
fuel supplied). -/
def shaped (t : SigType) (v : PyVal) : Bool :=
  shapedF (pySize v + 1) t v

mutual

/-- `signature(dbus_object, unpack=False)` from `_signature.py`: the
signature of a typed value.  A nonzero `variant_level` without `unpack`
yields `"v"` immediately; otherwise the value's shape is dispatched on:
arrays demand at most one distinct element signature (falling back to
the stowed signature when empty), dictionaries likewise for keys and
values, structs concatenate, scalars map to their one-character code. -/
def signature : DbusVal → Bool → Except SigErr String
  | d, unpack =>
    if d.variantLevel != 0 && !unpack then .ok "v"
    else
      match d with
      | .array sig items lvl =>
        match sigList items with
        | .error e => .error e
        | .ok sigs =>
          if sigs.dedup.length > 1 then .error (.varying (.array sig items lvl))
          else
            match sigs.dedup with
            | [] => .ok ("a" ++ sig)
            | u :: _ => .ok ("a" ++ u)
      | .struct _sig items _lvl =>
        match sigList items with
        | .error e => .error e
        | .ok sigs => .ok ("(" ++ sjoin sigs ++ ")")
      | .dictionary sig entries lvl =>
        match sigKeys entries with
        | .error e => .error e
        | .ok ksigs =>
          match sigValues entries with
          | .error e => .error e
          | .ok vsigs =>
            if ksigs.dedup.length ≠ vsigs.dedup.length then
              .error (.dictLenMismatch (.dictionary sig entries lvl))
            else if ksigs.dedup.length > 1 then
              .error (.dictVaryingKeys (.dictionary sig entries lvl))
            else
              match ksigs.dedup, vsigs.dedup with
              | [], _ => .ok ("a\x7b" ++ sig ++ "\x7d")
              | ku :: _, vu :: _ => .ok ("a\x7b" ++ ku ++ vu ++ "\x7d")
              | _ :: _, [] =>
                .error (.dictLenMismatch (.dictionary sig entries lvl))
      | .boolean _ _ => .ok "b"
      | .byte _ _ => .ok "y"
      | .double _ _ => .ok "d"
      | .int16 _ _ => .ok "n"
      | .int32 _ _ => .ok "i"
      | .int64 _ _ => .ok "x"
      | .objectPath _ _ => .ok "o"
      | .signatureVal _ _ => .ok "g"
      | .string _ _ => .ok "s"
      | .uint16 _ _ => .ok "q"
      | .uint32 _ _ => .ok "u"
      | .uint64 _ _ => .ok "t"
      | .unixFd _ _ => .ok "h"

/-- `frozenset(signature(x) for x in dbus_object)` (before taking the
set, the signatures in order): the signature of every item, without
unpacking, failing fast. -/
def sigList : DbusList → Except SigErr (List String)
  | .nil => .ok []
  | .cons x xs =>
    match signature x false with
    | .error e => .error e
    | .ok s =>
      match sigList xs with
      | .error e => .error e
      | .ok rest => .ok (s :: rest)

/-- `frozenset(signature(x) for x in dbus_object.keys())` (the key
signatures in order). -/
def sigKeys : DbusPairs → Except SigErr (List String)
  | .nil => .ok []
  | .cons k _ ps =>
    match signature k false with
    | .error e => .error e
    | .ok s =>
      match sigKeys ps with
      | .error e => .error e
      | .ok rest => .ok (s :: rest)

/-- `frozenset(signature(x) for x in dbus_object.values())` (the value
signatures in order). -/
def sigValues : DbusPairs → Except SigErr (List String)
  | .nil => .ok []
  | .cons _ w ps =>
    match signature w false with
    | .error e => .error e
    | .ok s =>
      match sigValues ps with
      | .error e => .error e
      | .ok rest => .ok (s :: rest)

end

/-! ## String utilities -/

theorem string_data_ext : ∀ {a b : String}, a.data = b.data → a = b
  | ⟨_⟩, ⟨_⟩, h => congrArg String.mk h

theorem string_data_append (a b : String) : (a ++ b).data = a.data ++ b.data := rfl

theorem string_singleton_data (c : Char) : (String.singleton c).data = [c] := rfl

/-! ## Parser / fragment round trip -/

theorem basicOfChar_char {c : Char} {k : BasicCode} (h : basicOfChar c = some k) :
    k.char = c := by
  unfold basicOfChar at h
  by_cases h1 : c = 'y'
  · rw [if_pos h1] at h; injection h with hx; subst hx; rw [h1]; rfl
  rw [if_neg h1] at h
  by_cases h2 : c = 'b'
  · rw [if_pos h2] at h; injection h with hx; subst hx; rw [h2]; rfl
  rw [if_neg h2] at h
  by_cases h3 : c = 'n'
  · rw [if_pos h3] at h; injection h with hx; subst hx; rw [h3]; rfl
  rw [if_neg h3] at h
  by_cases h4 : c = 'q'
  · rw [if_pos h4] at h; injection h with hx; subst hx; rw [h4]; rfl
  rw [if_neg h4] at h
  by_cases h5 : c = 'i'
  · rw [if_pos h5] at h; injection h with hx; subst hx; rw [h5]; rfl
  rw [if_neg h5] at h
  by_cases h6 : c = 'u'
  · rw [if_pos h6] at h; injection h with hx; subst hx; rw [h6]; rfl
  rw [if_neg h6] at h
  by_cases h7 : c = 'x'
  · rw [if_pos h7] at h; injection h with hx; subst hx; rw [h7]; rfl
  rw [if_neg h7] at h
  by_cases h8 : c = 't'
  · rw [if_pos h8] at h; injection h with hx; subst hx; rw [h8]; rfl
  rw [if_neg h8] at h
  by_cases h9 : c = 'd'
  · rw [if_pos h9] at h; injection h with hx; subst hx; rw [h9]; rfl
  rw [if_neg h9] at h
  by_cases h10 : c = 's'
  · rw [if_pos h10] at h; injection h with hx; subst hx; rw [h10]; rfl
  rw [if_neg h10] at h
  by_cases h11 : c = 'o'
  · rw [if_pos h11] at h; injection h with hx; subst hx; rw [h11]; rfl
  rw [if_neg h11] at h
  by_cases h12 : c = 'g'
  · rw [if_pos h12] at h; injection h with hx; subst hx; rw [h12]; rfl
  rw [if_neg h12] at h
  by_cases h13 : c = 'h'
  · rw [if_pos h13] at h; injection h with hx; subst hx; rw [h13]; rfl
  rw [if_neg h13] at h
  exact absurd h (by simp)

theorem parseC_nil (f : Nat) : parseC f [] = none := by
  cases f <;> rfl

theorem fragment_basic_data (k : BasicCode) :
    (fragment (.basic k)).data = [k.char] := by
  cases k <;> rfl

theorem fragment_variant_data : (fragment .variant).data = ['v'] := rfl

theorem fragment_array_data (et : SigType) :
    (fragment (.array et)).data = 'a' :: (fragment et).data := rfl

theorem fragment_dict_data (kt vt : SigType) :
    (fragment (.dict kt vt)).data =
      'a' :: '{' :: ((fragment kt).data ++ ((fragment vt).data ++ ['}'])) := by
  show ((['a', '{'] ++ (fragment kt).data) ++ (fragment vt).data) ++ ['}'] = _
  simp

theorem fragment_struct_data (ms : SigMembers) :
    (fragment (.struct ms)).data = '(' :: ((fragmentJoin ms).data ++ [')']) := by
  show (['('] ++ (fragmentJoin ms).data) ++ [')'] = _
  simp

theorem fragmentJoin_nil_data : (fragmentJoin .nil).data = [] := rfl

theorem fragmentJoin_cons_data (t : SigType) (ms : SigMembers) :
    (fragmentJoin (.cons t ms)).data = (fragment t).data ++ (fragmentJoin ms).data := rfl

theorem parseLoop_frag
    (step : List Char → Option (SigType × List Char))
    (Hstep : ∀ cs t r, step cs = some (t, r) → (fragment t).data ++ r = cs) :
    ∀ f cs ms rest, parseLoop step f cs = some (ms, rest) →
      (fragmentJoin ms).data ++ ')' :: rest = cs := by
  intro f
  induction f with
  | zero => intro cs ms rest h; simp [parseLoop] at h
  | succ f ih =>
    intro cs ms rest h
    simp only [parseLoop] at h
    split at h
    · simp only [Option.some.injEq, Prod.mk.injEq] at h
      obtain ⟨h1, h2⟩ := h
      rw [← h1, ← h2]
      rfl
    · exact Option.noConfusion h
    · cases hstep : step cs with
      | none => simp only [hstep] at h; exact Option.noConfusion h
      | some tr =>
        obtain ⟨t, r⟩ := tr
        simp only [hstep] at h
        cases hloop : parseLoop step f r with
        | none => simp only [hloop] at h; exact Option.noConfusion h
        | some msr =>
          obtain ⟨ms', r2⟩ := msr
          simp only [hloop] at h
          simp only [Option.some.injEq, Prod.mk.injEq] at h
          obtain ⟨h1, h2⟩ := h
          rw [← h1, ← h2]
          have e1 := Hstep _ _ _ hstep
          have e2 := ih _ _ _ hloop
          calc (fragmentJoin (.cons t ms')).data ++ ')' :: r2
              = ((fragment t).data ++ (fragmentJoin ms').data) ++ ')' :: r2 := by
                rw [fragmentJoin_cons_data]
            _ = (fragment t).data ++ ((fragmentJoin ms').data ++ ')' :: r2) := by
                rw [List.append_assoc]
            _ = (fragment t).data ++ r := by rw [e2]
            _ = cs := e1

theorem parseC_frag :
    ∀ f cs t rest, parseC f cs = some (t, rest) → (fragment t).data ++ rest = cs := by
  intro f
  induction f with
  | zero => intro cs t rest h; simp [parseC] at h
  | succ f ih =>
    intro cs t rest h
    cases cs with
    | nil => simp [parseC] at h
    | cons c cs2 =>
      simp only [parseC] at h
      cases hb : basicOfChar c with
      | some k =>
        simp only [hb] at h
        simp only [Option.some.injEq, Prod.mk.injEq] at h
        obtain ⟨h1, h2⟩ := h
        rw [← h1, ← h2, fragment_basic_data, basicOfChar_char hb]
        rfl
      | none =>
        simp only [hb] at h
        split_ifs at h with hv ha hp
        · -- c = 'v'
          simp only [Option.some.injEq, Prod.mk.injEq] at h
          obtain ⟨h1, h2⟩ := h
          rw [← h1, ← h2, fragment_variant_data, hv]
          rfl
        · -- c = 'a'
          subst ha
          split at h
          · -- dict-entry array: cs2 = '{' :: cs3
            rename_i cs3
            cases hk : parseC f cs3 with
            | none => simp only [hk] at h; exact Option.noConfusion h
            | some ktr =>
              obtain ⟨kt, r1⟩ := ktr
              simp only [hk] at h
              cases hv2 : parseC f r1 with
              | none => simp only [hv2] at h; exact Option.noConfusion h
              | some vtr =>
                obtain ⟨vt, r2⟩ := vtr
                simp only [hv2] at h
                split at h
                · -- r2 = '}' :: r3
                  rename_i r3
                  simp only [Option.some.injEq, Prod.mk.injEq] at h
                  obtain ⟨h1, h2⟩ := h
                  rw [← h1, ← h2, fragment_dict_data]
                  have e1 := ih _ _ _ hk
                  have e2 := ih _ _ _ hv2
                  have e3 : (fragment kt).data ++ ((fragment vt).data ++ '}' :: r3)
                      = cs3 := by rw [e2, e1]
                  calc 'a' :: '{' ::
                        ((fragment kt).data ++ ((fragment vt).data ++ ['}'])) ++ r3
                      = 'a' :: '{' ::
                        ((fragment kt).data ++ ((fragment vt).data ++ '}' :: r3)) := by
                        simp
                    _ = 'a' :: '{' :: cs3 := by rw [e3]
                · exact Option.noConfusion h
          · -- plain array
            rename_i hne
            cases he : parseC f cs2 with
            | none => simp only [he] at h; exact Option.noConfusion h
            | some etr =>
              obtain ⟨et, r⟩ := etr
              simp only [he] at h
              simp only [Option.some.injEq, Prod.mk.injEq] at h
              obtain ⟨h1, h2⟩ := h
              rw [← h1, ← h2, fragment_array_data]
              have e1 := ih _ _ _ he
              calc 'a' :: (fragment et).data ++ r
                  = 'a' :: ((fragment et).data ++ r) := by simp
                _ = 'a' :: cs2 := by rw [e1]
        · -- c = '('
          subst hp
          cases hl : parseLoop (fun cs4 => parseC f cs4) f cs2 with
          | none => simp only [hl] at h; exact Option.noConfusion h
          | some msr =>
            obtain ⟨ms, r⟩ := msr
            simp only [hl] at h
            simp only [Option.some.injEq, Prod.mk.injEq] at h
            obtain ⟨h1, h2⟩ := h
            rw [← h1, ← h2, fragment_struct_data]
            have e1 := parseLoop_frag _ (fun cs t r hstep => ih cs t r hstep) _ _ _ _ hl
            calc '(' :: ((fragmentJoin ms).data ++ [')']) ++ r
                = '(' :: ((fragmentJoin ms).data ++ ')' :: r) := by simp
              _ = '(' :: cs2 := by rw [e1]

theorem parseOneStr_frag {s : String} {t : SigType}
    (h : parseOneStr s = some (t, [])) : fragment t = s := by
  have := parseC_frag _ _ _ _ h
  simp at this
  exact string_data_ext this

/-- The concatenated fragment characters of a sequence of complete
types. -/
def fragsData : List SigType → List Char
  | [] => []
  | t :: ts => (fragment t).data ++ fragsData ts

theorem parseTopF_frag :
    ∀ f cs ts, parseTopF f cs = some ts → fragsData ts = cs := by
  intro f
  induction f with
  | zero =>
    intro cs ts h
    cases cs with
    | nil => simp only [parseTopF, Option.some.injEq] at h; rw [← h]; rfl
    | cons c cs2 => simp [parseTopF] at h
  | succ f ih =>
    intro cs ts h
    cases cs with
    | nil => simp only [parseTopF, Option.some.injEq] at h; rw [← h]; rfl
    | cons c cs2 =>
      simp only [parseTopF] at h
      cases hp : parseC ((c :: cs2).length + 1) (c :: cs2) with
      | none => simp only [hp] at h; exact Option.noConfusion h
      | some tr =>
        obtain ⟨t, r⟩ := tr
        simp only [hp] at h
        cases ht : parseTopF f r with
        | none => simp only [ht] at h; exact Option.noConfusion h
        | some ts2 =>
          simp only [ht, Option.some.injEq] at h
          rw [← h]
          have e1 := parseC_frag _ _ _ _ hp
          have e2 := ih _ _ ht
          calc fragsData (t :: ts2) = (fragment t).data ++ fragsData ts2 := rfl
            _ = (fragment t).data ++ r := by rw [e2]
            _ = c :: cs2 := e1

theorem parseTopStr_single {S : String} {t : SigType}
    (h : parseTopStr S = some [t]) : fragment t = S := by
  have e := parseTopF_frag _ _ _ h
  apply string_data_ext
  simpa [fragsData] using e

/-! ## Helper lemmas about the embedded functions -/

theorem variant_levels_zero (level : Nat) : variant_levels level 0 = (0, level) := by
  simp [variant_levels]

theorem variant_levels_pos (level : Nat) {k : Nat} (h : k ≠ 0) :
    variant_levels level k = (level + k, level + k) := by
  simp [variant_levels, h]

theorem signature_vl_ne {d : DbusVal} (h : d.variantLevel ≠ 0) :
    signature d false = .ok "v" := by
  rw [signature.eq_def]
  simp [h]

/-- A list whose members are all equal dedups to a singleton. -/
theorem dedup_all_eq {u : String} :
    ∀ l : List String, (∀ x ∈ l, x = u) → l ≠ [] → l.dedup = [u] := by
  intro l
  induction l with
  | nil => intro _ hne; exact absurd rfl hne
  | cons x xs ih =>
    intro hall _
    have hx : x = u := hall x (by simp)
    subst hx
    cases xs with
    | nil => simp
    | cons x2 xs2 =>
      have hmem : x ∈ x2 :: xs2 := by
        have : x2 = x := hall x2 (by simp)
        simp [this]
      rw [List.dedup_cons_of_mem hmem]
      exact ih (fun a ha => hall a (by simp [ha])) (by simp)

/-- A basic-type constructor succeeds on every value in its accepted
domain, at every variant level. -/
theorem shapedBasic_mkBasic :
    ∀ (k : BasicCode) (v : PyVal), shapedBasic k v = true → ∀ lvl : Nat,
      ∃ d, mkBasic k v lvl = .ok d := by
  intro k v h lvl
  cases k <;> cases v <;> simp_all [shapedBasic, mkBasic]

/-- What a successful basic-type construction yields: a scalar at the
requested level whose inferred signature is the one-character type
code. -/
theorem mkBasic_sig :
    ∀ (k : BasicCode) (v : PyVal) (lvl : Nat) (d : DbusVal),
      mkBasic k v lvl = .ok d →
      d.variantLevel = lvl ∧
      signature d true = .ok k.str ∧
      (lvl = 0 → signature d false = .ok k.str) := by
  intro k v lvl d h
  cases k <;> cases v <;> simp only [mkBasic] at h <;> try split_ifs at h
  all_goals
    first
      | exact Except.noConfusion h
      | (injection h with h2; subst h2;
         exact ⟨rfl,
           by rw [signature.eq_def]; simp [BasicCode.str, DbusVal.variantLevel],
           fun hl => by
             subst hl; rw [signature.eq_def]
             simp [BasicCode.str, DbusVal.variantLevel]⟩)

/-- The fragments of the members of a struct, as a list. -/
def fragmentsList : SigMembers → List String
  | .nil => []
  | .cons t ms => fragment t :: fragmentsList ms

theorem sjoin_fragmentsList : ∀ ms : SigMembers, sjoin (fragmentsList ms) = fragmentJoin ms
  | .nil => rfl
  | .cons t ms => by
    simp only [fragmentsList, sjoin, fragmentJoin, sjoin_fragmentsList ms]

theorem fragment_basic (k : BasicCode) : fragment (.basic k) = k.str := rfl

theorem fragment_variant : fragment .variant = "v" := rfl

theorem fragment_array (et : SigType) : fragment (.array et) = "a" ++ fragment et := rfl

theorem fragment_struct (ms : SigMembers) :
    fragment (.struct ms) = "(" ++ fragmentJoin ms ++ ")" := rfl

theorem fragment_dict (kt vt : SigType) :
    fragment (.dict kt vt) = "a\x7b" ++ fragment kt ++ fragment vt ++ "\x7d" := rfl

theorem fragment_dict_split (kt vt : SigType) :
    "a\x7b" ++ (fragment kt ++ fragment vt) ++ "\x7d" = fragment (.dict kt vt) := by
  apply string_data_ext
  rw [fragment_dict_data]
  simp [string_data_append]

theorem sigList_ofList_const {u : String} :
    ∀ l : List DbusVal, (∀ x ∈ l, signature x false = .ok u) →
      sigList (.ofList l) = .ok (l.map fun _ => u) := by
  intro l
  induction l with
  | nil => intro _; rfl
  | cons x xs ih =>
    intro hall
    have hx := hall x (by simp)
    have hrest := ih (fun a ha => hall a (by simp [ha]))
    simp [DbusList.ofList, sigList, hx, hrest]

theorem sigKeys_ofList_const {u : String} :
    ∀ l : List (DbusVal × DbusVal), (∀ p ∈ l, signature p.1 false = .ok u) →
      sigKeys (.ofList l) = .ok (l.map fun _ => u) := by
  intro l
  induction l with
  | nil => intro _; rfl
  | cons p ps ih =>
    intro hall
    obtain ⟨pk, pv⟩ := p
    have hx := hall (pk, pv) (by simp)
    have hrest := ih (fun a ha => hall a (by simp [ha]))
    simp [DbusPairs.ofList, sigKeys, hx, hrest]

theorem sigValues_ofList_const {u : String} :
    ∀ l : List (DbusVal × DbusVal), (∀ p ∈ l, signature p.2 false = .ok u) →
      sigValues (.ofList l) = .ok (l.map fun _ => u) := by
  intro l
  induction l with
  | nil => intro _; rfl
  | cons p ps ih =>
    intro hall
    obtain ⟨pk, pv⟩ := p
    have hx := hall (pk, pv) (by simp)
    have hrest := ih (fun a ha => hall a (by simp [ha]))
    simp [DbusPairs.ofList, sigValues, hx, hrest]

/-- Inversion of `shapedF` at a variant type: the value is a two-item
sequence of an embedded signature string that parses completely and an
embedded value shaped to match it. -/
theorem shapedF_variant_inv {f : Nat} {v : PyVal}
    (h : shapedF (f + 1) .variant v = true) :
    ∃ s w t2, unpack2 v = .ok (.str s, w) ∧ parseOneStr s = some (t2, []) ∧
      shapedF f t2 w = true ∧ pySize w < pySize v := by
  cases v with
  | bool b => simp [shapedF] at h
  | int n => simp [shapedF] at h
  | float n => simp [shapedF] at h
  | str s => simp [shapedF] at h
  | dict ps => simp [shapedF] at h
  | list xs =>
    cases xs with
    | nil => simp [shapedF] at h
    | cons x1 rest =>
      cases rest with
      | nil => simp [shapedF] at h
      | cons x2 rest2 =>
        cases rest2 with
        | cons x3 rest3 => simp [shapedF] at h
        | nil =>
          cases x1 with
          | str s =>
            refine ⟨s, x2, ?_⟩
            simp only [shapedF] at h
            cases hp : parseOneStr s with
            | none => rw [hp] at h; exact absurd h (by simp)
            | some tr =>
              obtain ⟨t2, r⟩ := tr
              rw [hp] at h
              cases r with
              | cons c r2 => exact absurd h (by simp)
              | nil =>
                refine ⟨t2, rfl, rfl, h, ?_⟩
                simp [pySize, plSize]
                omega
          | bool b => simp [shapedF] at h
          | int n => simp [shapedF] at h
          | float n => simp [shapedF] at h
          | list l => simp [shapedF] at h
          | tuple l => simp [shapedF] at h
          | dict l => simp [shapedF] at h
  | tuple xs =>
    cases xs with
    | nil => simp [shapedF] at h
    | cons x1 rest =>
      cases rest with
      | nil => simp [shapedF] at h
      | cons x2 rest2 =>
        cases rest2 with
        | cons x3 rest3 => simp [shapedF] at h
        | nil =>
          cases x1 with
          | str s =>
            refine ⟨s, x2, ?_⟩
            simp only [shapedF] at h
            cases hp : parseOneStr s with
            | none => rw [hp] at h; exact absurd h (by simp)
            | some tr =>
              obtain ⟨t2, r⟩ := tr
              rw [hp] at h
              cases r with
              | cons c r2 => exact absurd h (by simp)
              | nil =>
                refine ⟨t2, rfl, rfl, h, ?_⟩
                simp [pySize, plSize]
                omega
          | bool b => simp [shapedF] at h
          | int n => simp [shapedF] at h
          | float n => simp [shapedF] at h
          | list l => simp [shapedF] at h
          | tuple l => simp [shapedF] at h
          | dict l => simp [shapedF] at h

theorem mem_map_const {α : Type} {u : String} {l : List α} :
    ∀ x ∈ l.map (fun _ => u), x = u := by
  intro x hx
  obtain ⟨a, -, h⟩ := List.mem_map.mp hx
  exact h.symm

theorem plSize_pos : ∀ xs : PyList, 1 ≤ plSize xs := by
  intro xs; cases xs <;> simp only [plSize] <;> omega

theorem ppSize_pos : ∀ ps : PyPairs, 1 ≤ ppSize ps := by
  intro ps; cases ps <;> simp only [ppSize] <;> omega

theorem pySize_pos : ∀ v : PyVal, 1 ≤ pySize v := by
  intro v; cases v <;> simp only [pySize] <;> omega

theorem xformElems_nil (g : Nat) (et : SigType) : xformElems g et .nil = .ok [] := by
  cases g <;> rfl

theorem xformPairs_nil (g : Nat) (kt vt : SigType) : xformPairs g kt vt .nil = .ok [] := by
  cases g <;> rfl

theorem xformZip_nil (g : Nat) (xs : PyList) : xformZip g .nil xs = .ok [] := by
  cases g <;> cases xs <;> rfl

/-- The central lemma: on an input shaped to match a complete type, the
compiled transform succeeds (given sufficient fuel); invoked at variant
level 0 the result's inferred signature is the node's fragment, and
invoked at a positive variant level the result's `variant_level` is
positive. -/
theorem xform_ok :
    ∀ f : Nat, ∀ (t : SigType) (v : PyVal) (g k : Nat),
      shapedF f t v = true → pySize v < g →
      ∃ d l, xform g t v k = .ok (d, l) ∧
        (k = 0 → signature d false = .ok (fragment t)) ∧
        (k ≠ 0 → d.variantLevel ≠ 0) := by
  intro f
  induction f using Nat.strong_induction_on with
  | _ f IH =>
    intro t v g k hs hg
    cases f with
    | zero => simp [shapedF] at hs
    | succ f =>
    have hvp := pySize_pos v
    cases g with
    | zero => omega
    | succ gg =>
    cases t with
    | basic k0 =>
      simp only [shapedF] at hs
      obtain ⟨d, hd⟩ := shapedBasic_mkBasic k0 v hs (variant_levels 0 k).1
      obtain ⟨hvl, _hsT, hs0⟩ := mkBasic_sig _ _ _ _ hd
      refine ⟨d, (variant_levels 0 k).2, ?_, ?_, ?_⟩
      · simp only [xform, hd]
      · intro hk
        subst hk
        rw [variant_levels_zero] at hs0
        simpa [fragment_basic] using hs0 rfl
      · intro hk
        rw [variant_levels_pos 0 hk] at hvl
        rw [hvl]
        omega
    | variant =>
      obtain ⟨s2, w, t2, hu, hp, hsw, hlt⟩ := shapedF_variant_inv hs
      have hfrag := parseOneStr_frag hp
      obtain ⟨d, l, hx, _hs0, hne⟩ := IH f (by omega) t2 w gg (k + 1) hsw (by omega)
      have hdne : d.variantLevel ≠ 0 := hne (by omega)
      refine ⟨d, d.variantLevel, ?_, ?_, ?_⟩
      · simp only [xform, hu, hp]
        rw [if_pos hfrag, hx]
      · intro _
        rw [fragment_variant]
        exact signature_vl_ne hdne
      · intro _
        exact hdne
    | array et =>
      have elems : ∀ f2 : Nat, f2 < f + 1 → ∀ (xs2 : PyList) (g2 : Nat),
          shapedElems f2 et xs2 = true → plSize xs2 < g2 →
          ∃ rs, xformElems g2 et xs2 = .ok rs ∧
            ∀ r ∈ rs, signature r.1 false = .ok (fragment et) := by
        intro f2
        induction f2 with
        | zero =>
          intro _ xs2 g2 hsh _
          cases xs2 with
          | nil => exact ⟨[], xformElems_nil g2 et, by simp⟩
          | cons x xs3 => simp [shapedElems] at hsh
        | succ f2 ihe =>
          intro hlt2 xs2 g2 hsh hsz
          cases xs2 with
          | nil => exact ⟨[], xformElems_nil g2 et, by simp⟩
          | cons x xs3 =>
            simp only [shapedElems, Bool.and_eq_true] at hsh
            obtain ⟨hx1, hrest⟩ := hsh
            simp only [plSize] at hsz
            have hp1 := pySize_pos x
            have hp2 := plSize_pos xs3
            cases g2 with
            | zero => omega
            | succ g3 =>
              obtain ⟨d, l, hxf, hsig0, _⟩ :=
                IH f2 (by omega) et x g3 0 hx1 (by omega)
              obtain ⟨rs, hrs, hall⟩ := ihe (by omega) xs3 g3 hrest (by omega)
              refine ⟨(d, l) :: rs, ?_, ?_⟩
              · simp only [xformElems, hxf, hrs]
              · intro r hr
                rcases List.mem_cons.mp hr with h1 | h2
                · rw [h1]
                  exact hsig0 rfl
                · exact hall r h2
      cases v with
      | bool b => simp [shapedF] at hs
      | int n => simp [shapedF] at hs
      | float n => simp [shapedF] at hs
      | str s2 => simp [shapedF] at hs
      | tuple xs => simp [shapedF] at hs
      | dict ps => simp [shapedF] at hs
      | list xs =>
        simp only [shapedF] at hs
        simp only [pySize] at hg
        obtain ⟨rs, hrs, hall⟩ := elems f (by omega) xs gg hs (by omega)
        have hxeq : ∃ lvl, xform (gg + 1) (.array et) (.list xs) k =
            .ok (.array (fragment et) (.ofList (rs.map Prod.fst)) (variant_levels lvl k).1,
              (variant_levels lvl k).2) :=
          ⟨_, by simp only [xform, hrs]; exact rfl⟩
        obtain ⟨lvl, hxeq⟩ := hxeq
        refine ⟨_, _, hxeq, ?_, ?_⟩
        · intro hk
          subst hk
          have hconst : ∀ x ∈ rs.map Prod.fst, signature x false = .ok (fragment et) := by
            intro x hx
            obtain ⟨r, hr, rfl⟩ := List.mem_map.mp hx
            exact hall r hr
          have hsl := sigList_ofList_const (rs.map Prod.fst) hconst
          rw [variant_levels_zero]
          rw [signature.eq_def]
          simp only [DbusVal.variantLevel, bne_self_eq_false, Bool.false_and, Bool.not_false,
            Bool.and_true, Bool.false_eq_true, if_false, ite_false]
          cases rs with
          | nil =>
            simp only [List.map_nil] at hsl
            simp [hsl, fragment_array]
          | cons r0 rs2 =>
            have hdd : (((r0 :: rs2).map Prod.fst).map fun _ => fragment et).dedup
                = [fragment et] :=
              dedup_all_eq _ mem_map_const (by simp)
            simp only [hsl, hdd]
            simp [fragment_array]
        · intro hk
          simp only [DbusVal.variantLevel, variant_levels_pos _ hk]
          omega
    | dict kt vt =>
      have prs : ∀ f2 : Nat, f2 < f + 1 → ∀ (ps2 : PyPairs) (g2 : Nat),
          shapedPairs f2 kt vt ps2 = true → ppSize ps2 < g2 →
          ∃ rs, xformPairs g2 kt vt ps2 = .ok rs ∧
            (∀ r ∈ rs, signature r.1.1 false = .ok (fragment kt)) ∧
            (∀ r ∈ rs, signature r.2.1 false = .ok (fragment vt)) := by
        intro f2
        induction f2 with
        | zero =>
          intro _ ps2 g2 hsh _
          cases ps2 with
          | nil => exact ⟨[], xformPairs_nil g2 kt vt, by simp, by simp⟩
          | cons pk pv ps3 => simp [shapedPairs] at hsh
        | succ f2 ihe =>
          intro hlt2 ps2 g2 hsh hsz
          cases ps2 with
          | nil => exact ⟨[], xformPairs_nil g2 kt vt, by simp, by simp⟩
          | cons pk pv ps3 =>
            simp only [shapedPairs, Bool.and_eq_true] at hsh
            obtain ⟨⟨hk1, hv1⟩, hrest⟩ := hsh
            simp only [ppSize] at hsz
            have hp1 := pySize_pos pk
            have hp2 := pySize_pos pv
            have hp3 := ppSize_pos ps3
            cases g2 with
            | zero => omega
            | succ g3 =>
              obtain ⟨dk, lk, hxk, hsk0, _⟩ :=
                IH f2 (by omega) kt pk g3 0 hk1 (by omega)
              obtain ⟨dv, lv2, hxv, hsv0, _⟩ :=
                IH f2 (by omega) vt pv g3 0 hv1 (by omega)
              obtain ⟨rs, hrs, hallk, hallv⟩ := ihe (by omega) ps3 g3 hrest (by omega)
              refine ⟨((dk, lk), (dv, lv2)) :: rs, ?_, ?_, ?_⟩
              · simp only [xformPairs, hxk, hxv, hrs]
              · intro r hr
                rcases List.mem_cons.mp hr with h1 | h2
                · rw [h1]
                  exact hsk0 rfl
                · exact hallk r h2
              · intro r hr
                rcases List.mem_cons.mp hr with h1 | h2
                · rw [h1]
                  exact hsv0 rfl
                · exact hallv r h2
      cases v with
      | bool b => simp [shapedF] at hs
      | int n => simp [shapedF] at hs
      | float n => simp [shapedF] at hs
      | str s2 => simp [shapedF] at hs
      | tuple xs => simp [shapedF] at hs
      | list xs => simp [shapedF] at hs
      | dict ps =>
        simp only [shapedF] at hs
        simp only [pySize] at hg
        obtain ⟨rs, hrs, hallk, hallv⟩ := prs f (by omega) ps gg hs (by omega)
        have hxeq : ∃ lvl, xform (gg + 1) (.dict kt vt) (.dict ps) k =
            .ok (.dictionary (fragment kt ++ fragment vt)
                (.ofList (rs.map fun p => (p.1.1, p.2.1))) (variant_levels lvl k).1,
              (variant_levels lvl k).2) :=
          ⟨_, by simp only [xform, hrs]; exact rfl⟩
        obtain ⟨lvl, hxeq⟩ := hxeq
        refine ⟨_, _, hxeq, ?_, ?_⟩
        · intro hk
          subst hk
          have hconstk : ∀ p ∈ rs.map fun p => (p.1.1, p.2.1),
              signature p.1 false = .ok (fragment kt) := by
            intro p hp2
            obtain ⟨r, hr, rfl⟩ := List.mem_map.mp hp2
            exact hallk r hr
          have hconstv : ∀ p ∈ rs.map fun p => (p.1.1, p.2.1),
              signature p.2 false = .ok (fragment vt) := by
            intro p hp2
            obtain ⟨r, hr, rfl⟩ := List.mem_map.mp hp2
            exact hallv r hr
          have hslk := sigKeys_ofList_const _ hconstk
          have hslv := sigValues_ofList_const _ hconstv
          rw [variant_levels_zero]
          rw [signature.eq_def]
          simp only [DbusVal.variantLevel, bne_self_eq_false, Bool.false_and, Bool.not_false,
            Bool.and_true, Bool.false_eq_true, if_false, ite_false]
          cases rs with
          | nil =>
            simp only [List.map_nil] at hslk hslv ⊢
            simp only [hslk, hslv]
            simp [fragment_dict_split]
          | cons r0 rs2 =>
            have hddk : ((((r0 :: rs2).map fun p => (p.1.1, p.2.1)).map
                fun _ => fragment kt)).dedup = [fragment kt] :=
              dedup_all_eq _ mem_map_const (by simp)
            have hddv : ((((r0 :: rs2).map fun p => (p.1.1, p.2.1)).map
                fun _ => fragment vt)).dedup = [fragment vt] :=
              dedup_all_eq _ mem_map_const (by simp)
            simp only [hslk, hslv, hddk, hddv]
            simp [fragment_dict]
        · intro hk
          simp only [DbusVal.variantLevel, variant_levels_pos _ hk]
          omega
    | struct ms =>
      have zips : ∀ f2 : Nat, f2 < f + 1 → ∀ (ms2 : SigMembers) (xs2 : PyList) (g2 : Nat),
          shapedZip f2 ms2 xs2 = true → plSize xs2 < g2 →
          xs2.length = ms2.length ∧
          ∃ rs, xformZip g2 ms2 xs2 = .ok rs ∧
            sigList (.ofList (rs.map Prod.fst)) = .ok (fragmentsList ms2) := by
        intro f2
        induction f2 with
        | zero =>
          intro _ ms2 xs2 g2 hsh _
          cases ms2 with
          | nil =>
            cases xs2 with
            | nil => exact ⟨rfl, [], xformZip_nil g2 .nil, rfl⟩
            | cons x xs3 => simp [shapedZip] at hsh
          | cons t0 ms3 =>
            cases xs2 with
            | nil => simp [shapedZip] at hsh
            | cons x xs3 => simp [shapedZip] at hsh
        | succ f2 ihe =>
          intro hlt2 ms2 xs2 g2 hsh hsz
          cases ms2 with
          | nil =>
            cases xs2 with
            | nil => exact ⟨rfl, [], xformZip_nil g2 .nil, rfl⟩
            | cons x xs3 => simp [shapedZip] at hsh
          | cons t0 ms3 =>
            cases xs2 with
            | nil => simp [shapedZip] at hsh
            | cons x xs3 =>
              simp only [shapedZip, Bool.and_eq_true] at hsh
              obtain ⟨hx1, hrest⟩ := hsh
              simp only [plSize] at hsz
              have hp1 := pySize_pos x
              have hp2 := plSize_pos xs3
              cases g2 with
              | zero => omega
              | succ g3 =>
                obtain ⟨d, l, hxf, hsig0, _⟩ :=
                  IH f2 (by omega) t0 x g3 0 hx1 (by omega)
                obtain ⟨hlen, rs, hrs, hsl⟩ := ihe (by omega) ms3 xs3 g3 hrest (by omega)
                refine ⟨?_, (d, l) :: rs, ?_, ?_⟩
                · simp only [PyList.length, SigMembers.length, hlen]
                · simp only [xformZip, hxf, hrs]
                · simp only [List.map_cons, DbusList.ofList, sigList, hsig0 rfl, hsl,
                    fragmentsList]
      cases v with
      | bool b => simp [shapedF] at hs
      | int n => simp [shapedF] at hs
      | float n => simp [shapedF] at hs
      | str s2 => simp [shapedF] at hs
      | dict ps => simp [shapedF] at hs
      | list xs =>
        simp only [shapedF] at hs
        simp only [pySize] at hg
        obtain ⟨hlen, rs, hrs, hsl⟩ := zips f (by omega) ms xs gg hs (by omega)
        have hxeq : ∃ lvl, xform (gg + 1) (.struct ms) (.list xs) k =
            .ok (.struct (fragmentJoin ms) (.ofList (rs.map Prod.fst))
                (variant_levels lvl k).1,
              (variant_levels lvl k).2) :=
          ⟨_, by simp only [xform, hlen, if_true, hrs]; exact rfl⟩
        obtain ⟨lvl, hxeq⟩ := hxeq
        refine ⟨_, _, hxeq, ?_, ?_⟩
        · intro hk
          subst hk
          rw [variant_levels_zero]
          rw [signature.eq_def]
          simp only [DbusVal.variantLevel, bne_self_eq_false, Bool.false_and, Bool.not_false,
            Bool.and_true, Bool.false_eq_true, if_false, ite_false]
          simp only [hsl]
          simp [sjoin_fragmentsList, fragment_struct]
        · intro hk
          simp only [DbusVal.variantLevel, variant_levels_pos _ hk]
          omega
      | tuple xs =>
        simp only [shapedF] at hs
        simp only [pySize] at hg
        obtain ⟨hlen, rs, hrs, hsl⟩ := zips f (by omega) ms xs gg hs (by omega)
        have hxeq : ∃ lvl, xform (gg + 1) (.struct ms) (.tuple xs) k =
            .ok (.struct (fragmentJoin ms) (.ofList (rs.map Prod.fst))
                (variant_levels lvl k).1,
              (variant_levels lvl k).2) :=
          ⟨_, by simp only [xform, hlen, if_true, hrs]; exact rfl⟩
        obtain ⟨lvl, hxeq⟩ := hxeq
        refine ⟨_, _, hxeq, ?_, ?_⟩
        · intro hk
          subst hk
          rw [variant_levels_zero]
          rw [signature.eq_def]
          simp only [DbusVal.variantLevel, bne_self_eq_false, Bool.false_and, Bool.not_false,
            Bool.and_true, Bool.false_eq_true, if_false, ite_false]
          simp only [hsl]
          simp [sjoin_fragmentsList, fragment_struct]
        · intro hk
          simp only [DbusVal.variantLevel, variant_levels_pos _ hk]
          omega

/-! ## Entry-point helper lemmas -/

theorem fuel_succ (v : PyVal) : ∃ n, pySize v = n + 1 :=
  ⟨pySize v - 1, by have := pySize_pos v; omega⟩

theorem transform_eq (t : SigType) (v : PyVal) :
    transform t v = wrap v (xform (pySize v + 1) t v 0) := rfl

theorem xformer_single (t : SigType) (v : PyVal) {S : String}
    (hp : parseTopStr S = some [t]) :
    xformer S [v] = some
      (match transform t v with
       | .error e => .error e
       | .ok (d, _) => .ok [d]) := by
  simp only [xformer, hp]
  have hlen : [v].length = [t].length := rfl
  rw [if_pos hlen]
  cases htr : transform t v with
  | error e => simp [runAll, htr]
  | ok dl =>
    obtain ⟨d, l⟩ := dl
    simp [runAll, htr]

theorem wrap_ok (v : PyVal) (r : DbusVal × Nat) : wrap v (.ok r) = .ok r := rfl

theorem wrap_unexpected (v w : PyVal) (n m : String) (c : Option HostErr) :
    wrap v (.error (.unexpectedValue w n m c)) = .error (.unexpectedValue w n m c) := rfl

theorem unpack2_err : ∀ (v : PyVal) (e : HostErr),
    unpack2 v = .error e → e = .typeError ∨ e = .valueError
  | .bool _, e, h => by injection h with h2; exact Or.inl h2.symm
  | .int _, e, h => by injection h with h2; exact Or.inl h2.symm
  | .float _, e, h => by injection h with h2; exact Or.inl h2.symm
  | .str s, e, h => by
    simp only [unpack2] at h
    split at h
    · exact Except.noConfusion h
    · injection h with h2; exact Or.inr h2.symm
  | .list .nil, e, h => by injection h with h2; exact Or.inr h2.symm
  | .list (.cons _ .nil), e, h => by injection h with h2; exact Or.inr h2.symm
  | .list (.cons _ (.cons _ .nil)), e, h => by exact Except.noConfusion h
  | .list (.cons _ (.cons _ (.cons _ _))), e, h => by
    injection h with h2; exact Or.inr h2.symm
  | .tuple .nil, e, h => by injection h with h2; exact Or.inr h2.symm
  | .tuple (.cons _ .nil), e, h => by injection h with h2; exact Or.inr h2.symm
  | .tuple (.cons _ (.cons _ .nil)), e, h => by exact Except.noConfusion h
  | .tuple (.cons _ (.cons _ (.cons _ _))), e, h => by
    injection h with h2; exact Or.inr h2.symm
  | .dict .nil, e, h => by injection h with h2; exact Or.inr h2.symm
  | .dict (.cons _ _ .nil), e, h => by injection h with h2; exact Or.inr h2.symm
  | .dict (.cons _ _ (.cons _ _ .nil)), e, h => by exact Except.noConfusion h
  | .dict (.cons _ _ (.cons _ _ (.cons _ _ _))), e, h => by
    injection h with h2; exact Or.inr h2.symm

/-! ## The claims -/

/-- C5: Wrapper depth monotonicity: for signature `"v"` and the triply
nested input `("v", ("v", ("b", false)))`, the produced typed boolean
value's wrapper (variant) depth equals exactly 3. -/
theorem claim5_variant_depth_three :
    xformer "v"
      [.tuple (.ofList [.str "v",
        .tuple (.ofList [.str "v", .tuple (.ofList [.str "b", .bool false])])])] =
      some (.ok [.boolean false 3]) := rfl

/-- C6: Wrapper depth zero-propagation: for signature `"av"` and input
`[("b", false)]`, the produced outer array's own recorded wrapper depth
is 0 while its single element's recorded depth is 1 (the wrapping
applies only inside the array, never to the array itself). -/
theorem claim6_array_variant_levels :
    xformer "av" [.list (.ofList [.tuple (.ofList [.str "b", .bool false])])] =
      some (.ok [.array "v" (.ofList [.boolean false 1]) 0]) := rfl

/-- C2 (code evidence): the failure boundary `_wrapper` catches only
`TypeError` and `ValueError`, so the `AttributeError` raised by the
dict-entry-array transform on a non-mapping input escapes the public
entry point raw, instead of being re-raised as the library's
`SurprisingError`. -/
theorem claim2_attribute_error_escapes :
    xformer "a{bb}" [.list .nil] = some (.error (.host .attributeError)) := rfl

/-- C3 (counterexample): for the transform compiled from signature
`"v"`, a failure while re-parsing the embedded signature string (here
the unparseable `"w"`) escapes as the external grammar's parse
exception, not as the library's unexpected-value error naming the
tuple. -/
theorem claim3_counterexample :
    xformer "v" [.tuple (.ofList [.str "w", .bool true])] =
      some (.error (.host .parseException)) ∧
    ∀ (val : PyVal) (n m : String) (c : Option HostErr),
      xformer "v" [.tuple (.ofList [.str "w", .bool true])] ≠
        some (.error (.unexpectedValue val n m c)) := by
  refine ⟨rfl, ?_⟩
  intro val n m c h
  rw [show xformer "v" [.tuple (.ofList [.str "w", .bool true])] =
    some (.error (.host .parseException)) from rfl] at h
  simp at h

/-- C3 (amended): for the transform compiled from signature `"v"`,
invoked through the public entry point: a failure while unpacking the
input 2-tuple (a host `TypeError` or `ValueError`; note that any
two-item iterable unpacks successfully, a two-character string
included, as the final conjunct shows at `"sX"`) is caught by the
failure boundary and re-raised as the library's unexpected-value error
naming the offending top-level value with the original cause; a failure
while re-parsing the embedded signature string escapes as the external
grammar's parse exception. -/
theorem claim3_variant_failures :
    (∀ (v : PyVal) (e : HostErr), unpack2 v = .error e →
      xformer "v" [v] =
        some (.error (.unexpectedValue v "expr" "could not be transformed" (some e)))) ∧
    (∀ (s2 : String) (w : PyVal), parseOneStr s2 = none →
      xformer "v" [.tuple (.ofList [.str s2, w])] =
        some (.error (.host .parseException))) ∧
    xformer "v" [.str "sX"] = some (.ok [.string "X" 1]) := by
  refine ⟨?_, ?_, rfl⟩
  · intro v e hu
    rw [xformer_single .variant v (by rfl)]
    have hx : xform (pySize v + 1) .variant v 0 = .error (.host e) := by
      simp only [xform, hu]
    rw [transform_eq, hx]
    rcases unpack2_err v e hu with h1 | h1 <;> subst h1 <;> rfl
  · intro s2 w hp
    rw [xformer_single .variant _ (by rfl)]
    have hx : xform (pySize (PyVal.tuple (.ofList [.str s2, w])) + 1) .variant
        (.tuple (.ofList [.str s2, w])) 0 = .error (.host .parseException) := by
      simp only [xform, unpack2, PyList.ofList, hp]
    rw [transform_eq, hx]
    rfl

/-- C1: Round-trip: for every syntactically valid signature `S`
consisting of one complete type and every input value `v` shaped to
match `S`, transforming `[v]` with the transformer built for `S` and
then applying signature inference (without unpack) to the resulting
typed value returns exactly `S`. -/
theorem claim1_roundtrip_inference (S : String) (t : SigType) (v : PyVal)
    (hparse : parseTopStr S = some [t]) (hshape : shaped t v = true) :
    ∃ d, xformer S [v] = some (.ok [d]) ∧ signature d false = .ok S := by
  have hfrag : fragment t = S := parseTopStr_single hparse
  obtain ⟨d, l, hx, hs0, _⟩ :=
    xform_ok (pySize v + 1) t v (pySize v + 1) 0 hshape (by omega)
  refine ⟨d, ?_, ?_⟩
  · rw [xformer_single t v hparse, transform_eq, hx, wrap_ok]
  · rw [hs0 rfl, hfrag]

/-- C9: Fragment round-trip / assertion validity: for every signature
string accepted by the grammar as a single complete type, the fragment
produced by compiling it equals the string itself, so the variant
transform's defensive assertion comparing the re-parsed fragment with
the supplied string never fails: the transform proceeds directly to the
embedded transform at depth + 1. -/
theorem claim9_fragment_roundtrip (s2 : String) (t : SigType)
    (h : parseOneStr s2 = some (t, [])) :
    fragment t = s2 ∧
    ∀ (w : PyVal) (g k : Nat),
      xform (g + 1) .variant (.tuple (.ofList [.str s2, w])) k =
        (match xform g t w (k + 1) with
         | .ok (d, _) => .ok (d, d.variantLevel)
         | .error e => .error e) := by
  have hfrag := parseOneStr_frag h
  refine ⟨hfrag, ?_⟩
  intro w g k
  simp only [xform, unpack2, PyList.ofList, h]
  rw [if_pos hfrag]
  cases xform g t w (k + 1) with
  | error e => rfl
  | ok dl =>
    obtain ⟨d, l⟩ := dl
    rfl

/-- C10: Implicit edge case: every transform compiled from a dict-entry
array signature `a{KV}`, applied through the public entry point to a
non-mapping input (which has no `items()` method — a list, a string, a
number, …), raises the host `AttributeError`, which escapes the failure
boundary undeclared since only `TypeError` and `ValueError` are
caught. -/
theorem claim10_dict_array_attribute_error (S : String) (kt vt : SigType) (v : PyVal)
    (hp : parseTopStr S = some [.dict kt vt])
    (hv : ∀ ps : PyPairs, v ≠ .dict ps) :
    xformer S [v] = some (.error (.host .attributeError)) := by
  rw [xformer_single _ v hp]
  have hx : xform (pySize v + 1) (.dict kt vt) v 0 = .error (.host .attributeError) := by
    cases v with
    | dict ps => exact absurd rfl (hv ps)
    | bool b => simp [xform]
    | int n => simp [xform]
    | float n => simp [xform]
    | str s2 => simp [xform]
    | list xs => simp [xform]
    | tuple xs => simp [xform]
  rw [transform_eq, hx]
  rfl

/-- C7: Array-shaped signature inference: for an array value at wrapper
depth 0 whose elements' (non-unwrapped) signatures all compute, if the
element signatures include more than one distinct signature then
inference fails with a `SignatureError`; if the array is empty it
returns `a` followed by the signature stored on the value itself; and if
the element signatures dedup to a single signature it returns `a`
followed by that unique signature. -/
theorem claim7_array_inference (stored : String) (items : DbusList) (sigs : List String)
    (h : sigList items = .ok sigs) :
    (sigs.dedup.length > 1 →
      signature (.array stored items 0) false =
        .error (.varying (.array stored items 0))) ∧
    (items = .nil → signature (.array stored items 0) false = .ok ("a" ++ stored)) ∧
    (∀ u, sigs.dedup = [u] →
      signature (.array stored items 0) false = .ok ("a" ++ u)) := by
  have hbase : signature (.array stored items 0) false =
      (if sigs.dedup.length > 1 then .error (.varying (.array stored items 0))
       else match sigs.dedup with
         | [] => .ok ("a" ++ stored)
         | u :: _ => .ok ("a" ++ u)) := by
    rw [signature.eq_def]
    simp only [DbusVal.variantLevel, bne_self_eq_false, Bool.false_and, Bool.not_false,
      Bool.and_true, Bool.false_eq_true, if_false, ite_false]
    rw [h]
  refine ⟨?_, ?_, ?_⟩
  · intro hgt
    rw [hbase, if_pos hgt]
  · intro hnil
    subst hnil
    have h2 : Except.ok ([] : List String) = .ok sigs := h
    injection h2 with h3
    rw [hbase, ← h3]
    simp
  · intro u hu
    rw [hbase, hu]
    simp

/-- C4 (counterexample): for the struct signature `"(qq)"` and a
mapping input, the error raised is the unexpected-value error with
message `"must be a simple sequence, is a dict"`, which does not name
the expected count 2 (the digit `2` does not occur in it): the claim
that a mapping fails "with UnexpectedValue naming the expected and
actual counts" is false for the mapping branch. -/
theorem claim4_counterexample :
    xformer "(qq)" [.dict .nil] =
      some (.error (.unexpectedValue (.dict .nil) "a_list"
        "must be a simple sequence, is a dict" none)) ∧
    ("must be a simple sequence, is a dict".data.contains '2') = false :=
  ⟨rfl, by decide⟩

/-- C4 (amended): the compiled struct transform rejects any mapping
with an unexpected-value error naming the value (message "must be a
simple sequence, is a dict", without counts); rejects any sequence of
the wrong length — a list, a tuple or a string, whose characters count
as its items — with an unexpected-value error naming the expected and
actual counts; succeeds only on a non-mapping sequence (list, tuple or
string) of exactly the expected length; and in particular for `"(qq)"`
a 1-element or 3-element sequence fails with the counts-naming
unexpected-value error, a 2-element sequence of in-range values
succeeds, and for `"(ss)"` the 2-character string `"ab"` succeeds. -/
theorem claim4_struct_arity :
    (∀ (ms : SigMembers) (ps : PyPairs),
      transform (.struct ms) (.dict ps) =
        .error (.unexpectedValue (.dict ps) "a_list"
          "must be a simple sequence, is a dict" none)) ∧
    (∀ (ms : SigMembers) (xs : PyList), PyList.length xs ≠ ms.length →
      transform (.struct ms) (.list xs) =
        .error (.unexpectedValue (.list xs) "a_list"
          ("must have exactly " ++ toString ms.length ++ " items, has " ++
            toString (PyList.length xs)) none)) ∧
    (∀ (ms : SigMembers) (xs : PyList), PyList.length xs ≠ ms.length →
      transform (.struct ms) (.tuple xs) =
        .error (.unexpectedValue (.tuple xs) "a_list"
          ("must have exactly " ++ toString ms.length ++ " items, has " ++
            toString (PyList.length xs)) none)) ∧
    (∀ (ms : SigMembers) (s2 : String), s2.length ≠ ms.length →
      transform (.struct ms) (.str s2) =
        .error (.unexpectedValue (.str s2) "a_list"
          ("must have exactly " ++ toString ms.length ++ " items, has " ++
            toString s2.length) none)) ∧
    (∀ (ms : SigMembers) (v : PyVal) (r : DbusVal × Nat),
      transform (.struct ms) v = .ok r →
        (∃ xs, (v = .list xs ∨ v = .tuple xs) ∧ PyList.length xs = ms.length) ∨
        (∃ s2, v = .str s2 ∧ s2.length = ms.length)) ∧
    (xformer "(qq)" [.list (.ofList [.int 5])] =
      some (.error (.unexpectedValue (.list (.ofList [.int 5])) "a_list"
        "must have exactly 2 items, has 1" none))) ∧
    (xformer "(qq)" [.list (.ofList [.int 1, .int 2, .int 3])] =
      some (.error (.unexpectedValue (.list (.ofList [.int 1, .int 2, .int 3])) "a_list"
        "must have exactly 2 items, has 3" none))) ∧
    (xformer "(ss)" [.str "ab"] =
      some (.ok [.struct "ss" (.ofList [.string "a" 0, .string "b" 0]) 0])) ∧
    (∀ a b : Int, 0 ≤ a → a ≤ 65535 → 0 ≤ b → b ≤ 65535 →
      ∃ ds, xformer "(qq)" [.tuple (.ofList [.int a, .int b])] = some (.ok ds)) := by
  refine ⟨?_, ?_, ?_, ?_, ?_, rfl, rfl, rfl, ?_⟩
  · intro ms ps
    have hx : xform (pySize (PyVal.dict ps) + 1) (.struct ms) (.dict ps) 0 =
        .error (.unexpectedValue (.dict ps) "a_list"
          "must be a simple sequence, is a dict" none) := by
      simp only [xform]
    rw [transform_eq, hx, wrap_unexpected]
  · intro ms xs hlen
    have hx : xform (pySize (PyVal.list xs) + 1) (.struct ms) (.list xs) 0 =
        .error (.unexpectedValue (.list xs) "a_list"
          ("must have exactly " ++ toString ms.length ++ " items, has " ++
            toString (PyList.length xs)) none) := by
      simp only [xform]
      rw [if_neg hlen]
    rw [transform_eq, hx, wrap_unexpected]
  · intro ms xs hlen
    have hx : xform (pySize (PyVal.tuple xs) + 1) (.struct ms) (.tuple xs) 0 =
        .error (.unexpectedValue (.tuple xs) "a_list"
          ("must have exactly " ++ toString ms.length ++ " items, has " ++
            toString (PyList.length xs)) none) := by
      simp only [xform]
      rw [if_neg hlen]
    rw [transform_eq, hx, wrap_unexpected]
  · intro ms s2 hlen
    have hx : xform (pySize (PyVal.str s2) + 1) (.struct ms) (.str s2) 0 =
        .error (.unexpectedValue (.str s2) "a_list"
          ("must have exactly " ++ toString ms.length ++ " items, has " ++
            toString s2.length) none) := by
      simp only [xform]
      rw [if_neg hlen]
    rw [transform_eq, hx, wrap_unexpected]
  · intro ms v r h
    cases v with
    | bool b => simp [transform_eq, xform, wrap] at h
    | int n => simp [transform_eq, xform, wrap] at h
    | float n => simp [transform_eq, xform, wrap] at h
    | dict ps => simp [transform_eq, xform, wrap] at h
    | str s2 =>
      by_cases hlen : s2.length = ms.length
      · exact Or.inr ⟨s2, rfl, hlen⟩
      · exfalso
        rw [transform_eq] at h
        simp only [xform] at h
        rw [if_neg hlen, wrap_unexpected] at h
        exact Except.noConfusion h
    | list xs =>
      by_cases hlen : PyList.length xs = ms.length
      · exact Or.inl ⟨xs, Or.inl rfl, hlen⟩
      · exfalso
        rw [transform_eq] at h
        simp only [xform] at h
        rw [if_neg hlen, wrap_unexpected] at h
        exact Except.noConfusion h
    | tuple xs =>
      by_cases hlen : PyList.length xs = ms.length
      · exact Or.inl ⟨xs, Or.inr rfl, hlen⟩
      · exfalso
        rw [transform_eq] at h
        simp only [xform] at h
        rw [if_neg hlen, wrap_unexpected] at h
        exact Except.noConfusion h
  · intro a b ha1 ha2 hb1 hb2
    have hsh : shapedF
        (pySize (PyVal.tuple (.ofList [.int a, .int b])) + 1)
        (.struct (.cons (.basic .q) (.cons (.basic .q) .nil)))
        (.tuple (.ofList [.int a, .int b])) = true := by
      have hred : shapedF
          (pySize (PyVal.tuple (.ofList [.int a, .int b])) + 1)
          (.struct (.cons (.basic .q) (.cons (.basic .q) .nil)))
          (.tuple (.ofList [.int a, .int b])) =
          (decide (0 ≤ a ∧ a ≤ 65535) && (decide (0 ≤ b ∧ b ≤ 65535) && true)) := rfl
      rw [hred]
      simp [ha1, ha2, hb1, hb2]
    obtain ⟨d, l, hx, _, _⟩ :=
      xform_ok (pySize (PyVal.tuple (.ofList [.int a, .int b])) + 1)
        (.struct (.cons (.basic .q) (.cons (.basic .q) .nil)))
        (.tuple (.ofList [.int a, .int b]))
        (pySize (PyVal.tuple (.ofList [.int a, .int b])) + 1) 0 hsh (by omega)
    refine ⟨[d], ?_⟩
    rw [xformer_single (.struct (.cons (.basic .q) (.cons (.basic .q) .nil))) _ (by rfl),
      transform_eq, hx, wrap_ok]

/-- C8: Inference unpack flag: transforming, under signature `"v"`, the
input `(code, w)` for any scalar type code and any value `w` accepted
by that scalar's constructor yields a typed value whose inferred
signature without unpack is exactly `"v"`, while its inferred signature
with unpack does not start with `"v"` (its first character is not
`'v'`). -/
theorem claim8_unpack_flag (k : BasicCode) (w : PyVal) (hw : shapedBasic k w = true) :
    ∃ d, xformer "v" [.tuple (.ofList [.str k.str, w])] = some (.ok [d]) ∧
      signature d false = .ok "v" ∧
      ∃ u, signature d true = .ok u ∧ u.data.head? ≠ some 'v' := by
  have hpar : parseOneStr k.str = some (.basic k, []) := by cases k <;> rfl
  have hfrag : fragment (.basic k) = k.str := rfl
  obtain ⟨d, hd⟩ := shapedBasic_mkBasic k w hw 1
  obtain ⟨hvl, hsT, _⟩ := mkBasic_sig _ _ _ _ hd
  have hvl1 : variant_levels 0 1 = (1, 1) := by simp [variant_levels]
  have hx : xform (pySize (PyVal.tuple (.ofList [.str k.str, w])) + 1) .variant
      (.tuple (.ofList [.str k.str, w])) 0 = .ok (d, d.variantLevel) := by
    simp only [xform, unpack2, PyList.ofList, hpar]
    rw [if_pos hfrag]
    simp only [Nat.zero_add, hvl1, hd]
  refine ⟨d, ?_, ?_, ⟨k.str, hsT, ?_⟩⟩
  · rw [xformer_single .variant _ (by rfl), transform_eq, hx, wrap_ok]
  · exact signature_vl_ne (by rw [hvl]; omega)
  · cases k <;> decide

/-- Witness for C1 at a concrete signature and value. -/
theorem claim1_roundtrip_inference_witness :
    ∃ d, xformer "a{bv}"
        [.dict (.cons (.bool true) (.tuple (.ofList [.str "b", .bool false])) .nil)] =
        some (.ok [d]) ∧
      signature d false = .ok "a{bv}" :=
  claim1_roundtrip_inference "a{bv}" (.dict (.basic .b) .variant)
    (.dict (.cons (.bool true) (.tuple (.ofList [.str "b", .bool false])) .nil)) rfl rfl

/-- Witness for the amended C3 at concrete inputs: a non-iterable input
is re-raised as the library's value error with its cause, and an
unparseable embedded signature escapes as the grammar's parse
exception. -/
theorem claim3_variant_failures_witness :
    xformer "v" [.bool true] =
      some (.error (.unexpectedValue (.bool true) "expr" "could not be transformed"
        (some .typeError))) ∧
    xformer "v" [.tuple (.ofList [.str "w!", .bool true])] =
      some (.error (.host .parseException)) :=
  ⟨claim3_variant_failures.1 (.bool true) .typeError rfl,
   claim3_variant_failures.2.1 "w!" (.bool true) rfl⟩

/-- Witness for the amended C4 at concrete inputs. -/
theorem claim4_struct_arity_witness :
    transform (.struct (.cons (.basic .q) (.cons (.basic .q) .nil))) (.dict .nil) =
      .error (.unexpectedValue (.dict .nil) "a_list"
        "must be a simple sequence, is a dict" none) ∧
    transform (.struct (.cons (.basic .q) (.cons (.basic .q) .nil)))
        (.list (.ofList [.bool true])) =
      .error (.unexpectedValue (.list (.ofList [.bool true])) "a_list"
        ("must have exactly " ++
          toString (SigMembers.length (.cons (.basic .q) (.cons (.basic .q) .nil))) ++
          " items, has " ++ toString (PyList.length (.ofList [.bool true]))) none) ∧
    transform (.struct (.cons (.basic .q) (.cons (.basic .q) .nil))) (.str "abc") =
      .error (.unexpectedValue (.str "abc") "a_list"
        ("must have exactly " ++
          toString (SigMembers.length (.cons (.basic .q) (.cons (.basic .q) .nil))) ++
          " items, has " ++ toString ("abc" : String).length) none) ∧
    ((∃ xs, ((PyVal.str "ab") = .list xs ∨ (PyVal.str "ab") = .tuple xs) ∧
        PyList.length xs =
          SigMembers.length (.cons (.basic .s) (.cons (.basic .s) .nil))) ∨
      (∃ s2, (PyVal.str "ab") = .str s2 ∧
        s2.length = SigMembers.length (.cons (.basic .s) (.cons (.basic .s) .nil)))) ∧
    (∃ ds, xformer "(qq)" [.tuple (.ofList [.int 3, .int 4])] = some (.ok ds)) :=
  ⟨claim4_struct_arity.1 (.cons (.basic .q) (.cons (.basic .q) .nil)) .nil,
   claim4_struct_arity.2.1 (.cons (.basic .q) (.cons (.basic .q) .nil))
     (.ofList [.bool true]) (by decide),
   claim4_struct_arity.2.2.2.1 (.cons (.basic .q) (.cons (.basic .q) .nil))
     "abc" (by decide),
   claim4_struct_arity.2.2.2.2.1 (.cons (.basic .s) (.cons (.basic .s) .nil))
     (.str "ab") (.struct "ss" (.ofList [.string "a" 0, .string "b" 0]) 0, 0) rfl,
   claim4_struct_arity.2.2.2.2.2.2.2.2 3 4 (by decide) (by decide) (by decide) (by decide)⟩

/-- Witness for C7 at concrete array values: an array with elements of
differing signatures, an empty array, and an array with a unique
element signature. -/
theorem claim7_array_inference_witness :
    signature (.array "v" (.cons (.boolean false 2) (.cons (.byte 0 0) .nil)) 0) false =
      .error (.varying (.array "v" (.cons (.boolean false 2) (.cons (.byte 0 0) .nil)) 0)) ∧
    signature (.array "ab" .nil 0) false = .ok ("a" ++ "ab") ∧
    signature (.array "b" (.cons (.boolean false 0) (.cons (.boolean true 0) .nil)) 0)
      false = .ok ("a" ++ "b") :=
  ⟨(claim7_array_inference "v" (.cons (.boolean false 2) (.cons (.byte 0 0) .nil))
      ["v", "y"] rfl).1 (by decide),
   (claim7_array_inference "ab" .nil [] rfl).2.1 rfl,
   (claim7_array_inference "b" (.cons (.boolean false 0) (.cons (.boolean true 0) .nil))
      ["b", "b"] rfl).2.2 "b" (by decide)⟩

/-- Witness for C8 at the boolean code and value `false`. -/
theorem claim8_unpack_flag_witness :
    ∃ d, xformer "v" [.tuple (.ofList [.str (BasicCode.b).str, .bool false])] =
        some (.ok [d]) ∧
      signature d false = .ok "v" ∧
      ∃ u, signature d true = .ok u ∧ u.data.head? ≠ some 'v' :=
  claim8_unpack_flag .b (.bool false) rfl

/-- Witness for C9 at the concrete complete type `a{sv}`. -/
theorem claim9_fragment_roundtrip_witness :
    fragment (.dict (.basic .s) .variant) = "a{sv}" ∧
    xform (8 + 1) .variant (.tuple (.ofList [.str "a{sv}", .bool true])) 0 =
      (match xform 8 (.dict (.basic .s) .variant) (.bool true) (0 + 1) with
       | .ok (d, _) => .ok (d, d.variantLevel)
       | .error e => .error e) :=
  ⟨(claim9_fragment_roundtrip "a{sv}" (.dict (.basic .s) .variant) rfl).1,
   (claim9_fragment_roundtrip "a{sv}" (.dict (.basic .s) .variant) rfl).2 (.bool true) 8 0⟩

/-- Witness for C10 at signature `a{bb}` and a string input. -/
theorem claim10_dict_array_attribute_error_witness :
    xformer "a{bb}" [.str "x"] = some (.error (.host .attributeError)) :=
  claim10_dict_array_attribute_error "a{bb}" (.basic .b) (.basic .b) (.str "x") rfl
    (fun _ h => PyVal.noConfusion h)

end IntoDbus
